import Mathlib

/-!
Verification of the VideoProc repository (src/video.py, src/main.py).

The embedding is shallow: Python floats are modelled as exact rationals
(`ℚ`), `round(x, 2)` as round-half-to-even at two decimals, `int(x)` as
truncation toward zero, and the cv2 capture as a function `Nat → Option F`
from source-frame indices to frames together with a cursor.  Frames are a
type parameter `F`; `cv2.addWeighted` is an abstract `blend : ℚ → F → F → F`
argument, instantiated with affine combination on `ℚ` for concrete runs.
-/

namespace VideoProc

/-- Round half to even at the integer level, the idealized semantics of
Python's built-in `round`. -/
def rhe (x : ℚ) : ℤ :=
  let f := ⌊x⌋
  let r := x - f
  if r < 1/2 then f
  else if 1/2 < r then f + 1
  else if f % 2 = 0 then f else f + 1

/-- Python `round(x, 2)`: round half to even at two decimal places. -/
def round2 (x : ℚ) : ℚ := (rhe (100 * x) : ℚ) / 100

/-- Python `int(x)`: truncation toward zero. -/
def ratTrunc (x : ℚ) : ℤ := if 0 ≤ x then ⌊x⌋ else -⌊-x⌋

/-- The state of `NormalVideoCapture` (src/video.py, lines 10-24).  The
wrapped `cv2.VideoCapture` is modelled by `src` (frame at each source index)
together with the decode cursor `spos`. -/
structure NVC (F : Type) where
  src : Nat → Option F
  spos : Nat
  fps : ℚ
  target_fps : ℚ
  total : ℚ
  cur_pos : ℚ
  cur_frame : Option F
  next_pos : ℚ
  next_frame : Option F
  read_count : Nat
  orig_frames_read : Nat

/-- `NormalVideoCapture.__init__`: fresh state on a source stream. -/
def mkNVC {F : Type} (src : Nat → Option F) (fps target_fps total : ℚ) : NVC F :=
  ⟨src, 0, fps, target_fps, total, 0, none, 0, none, 0, 0⟩

namespace NVC

variable {F : Type}

/-- src/video.py line 27: `incr = fps / target_fps`. -/
def incr (s : NVC F) : ℚ := s.fps / s.target_fps

/-- src/video.py line 31: `pos = _next_pos`. -/
def pos (s : NVC F) : ℚ := s.next_pos

/-- src/video.py line 35. -/
def frames_read (s : NVC F) : Nat := s.read_count

/-- src/video.py line 43. -/
def frames_left_orig (s : NVC F) : ℚ := s.total - s.next_pos

/-- src/video.py line 39. -/
def frames_left (s : NVC F) : ℤ := ⌈(s.frames_left_orig + 1) / s.incr⌉

/-- src/video.py line 47. -/
def time_left (s : NVC F) : ℚ := s.frames_left_orig / s.fps

/-- src/video.py line 51: `time_read = pos / fps` (seconds). -/
def time_read (s : NVC F) : ℚ := s.pos / s.fps

/-- src/video.py lines 53-61.  Reads the next source frame; on end of
stream returns `_cur_frame` when `use_fallback` is set, else `None`.
`orig_frames_read` is incremented only on a successful decode. -/
def read_original (s : NVC F) (use_fallback : Bool) : Option F × NVC F :=
  match s.src s.spos with
  | none => if use_fallback then (s.cur_frame, s) else (none, s)
  | some f =>
      (some f, { s with spos := s.spos + 1,
                        orig_frames_read := s.orig_frames_read + 1 })

/-- src/video.py lines 63-66: `_return_frame`. -/
def returnFrame (f : Option F) (s : NVC F) : Bool × Option F × NVC F :=
  match f with
  | some _ => (true, f, { s with read_count := s.read_count + 1 })
  | none => (false, none, s)

/-- src/video.py lines 85-92: the `for _ in range(skip_n)` loop inside
`read`.  Returns `false` paired with the mutated state when a raw read
fails mid-loop (the Python code returns `False, None` there after having
set `_cur_frame = None`). -/
def skipLoop : Nat → NVC F → Bool × NVC F
  | 0, s => (true, s)
  | n + 1, s =>
      match s.next_frame with
      | some nf => skipLoop n { s with cur_frame := some nf, next_frame := none }
      | none =>
          match s.read_original false with
          | (none, s1) => (false, { s1 with cur_frame := none })
          | (some f, s1) => skipLoop n { s1 with cur_frame := some f }

/-- src/video.py lines 68-111: `read`.  `blend w a b` stands for
`cv2.addWeighted(a, w, b, 1 - w, 0)`. -/
def read (blend : ℚ → F → F → F) (s : NVC F) : Bool × Option F × NVC F :=
  match s.cur_frame with
  | none =>
      -- lines 71-74: first frame is returned straight from the source
      let p := s.read_original false
      returnFrame p.1 { p.2 with cur_frame := p.1 }
  | some _ =>
      -- line 77-78: shift position (note `_next_frame` is NOT cleared here)
      let s1 := { s with cur_pos := s.next_pos,
                         cur_frame := s.next_frame,
                         next_pos := s.next_pos + s.incr }
      -- line 83
      let skipN : ℤ := ⌈round2 s1.next_pos⌉ - ⌈round2 s1.cur_pos⌉
      match skipLoop skipN.toNat s1 with
      | (false, s2) => (false, none, s2)
      | (true, s2) =>
          -- line 94
          let weight := round2 (Int.fract s2.next_pos)
          if weight = 0 then returnFrame s2.cur_frame s2
          else
            -- line 104: lookahead decode, with fallback iff skip_n > 0
            match s2.read_original (decide (0 < skipN)) with
            | (none, s3) => (false, none, s3)
            | (some nf, s3) =>
                let s4 := { s3 with next_frame := some nf }
                match s4.cur_frame with
                | none => (false, none, s4)
                  -- unreachable when incr ≥ 1; Python would raise inside
                  -- cv2.addWeighted on a None frame here
                | some cf => returnFrame (some (blend weight cf nf)) s4

/-- src/video.py lines 116-119: the grab loop of `skip`.
`cap.grab()` succeeds while source frames remain; `count` and
`_orig_frames_read` are incremented on every iteration, even failed ones. -/
def grabLoop : Nat → Bool → NVC F → Bool × NVC F
  | 0, ok, s => (ok, s)
  | n + 1, ok, s =>
      match s.src s.spos with
      | none => grabLoop n false { s with orig_frames_read := s.orig_frames_read + 1 }
      | some _ => grabLoop n ok { s with spos := s.spos + 1,
                                         orig_frames_read := s.orig_frames_read + 1 }

/-- src/video.py lines 113-124: `skip(duration)`.  The duration is in
seconds; the result is `(success, count, new state)`.  Note there is no
third "boundary frames" component: the Python method returns only the
pair `(success, count)`. -/
def skip (s : NVC F) (duration : ℚ) : Bool × Nat × NVC F :=
  let n := (ratTrunc (duration * s.fps)).toNat
  let p := grabLoop n true s
  let offset := duration * s.target_fps
  (p.1, n, { p.2 with cur_pos := p.2.cur_pos + offset,
                      next_pos := p.2.next_pos + offset })

end NVC

/-- Iterate `read`, keeping only the state. -/
def iterRead {F : Type} (blend : ℚ → F → F → F) : Nat → NVC F → NVC F
  | 0, s => s
  | k + 1, s => iterRead blend k (NVC.read blend s).2.2

/-- The result of the `k`-th call to `read` (0-indexed) from a state. -/
def nthRead {F : Type} (blend : ℚ → F → F → F) (k : Nat) (s : NVC F) :
    Bool × Option F × NVC F :=
  NVC.read blend (iterRead blend k s)

/-- Number of successful `read` calls before the first failure (fuelled). -/
def countReads {F : Type} (blend : ℚ → F → F → F) : Nat → NVC F → Nat
  | 0, _ => 0
  | fuel + 1, s =>
      match NVC.read blend s with
      | (true, _, s1) => countReads blend fuel s1 + 1
      | (false, _, _) => 0

/-- Affine blending on rational-valued (single-pixel) frames: the exact
semantics of `cv2.addWeighted(a, w, b, 1 - w, 0)`. -/
def blendQ (w a b : ℚ) : ℚ := w * a + (1 - w) * b

/-- A finite stream of `k` distinct rational frames: frame `i` has value `i`. -/
def rampSrc (k : Nat) : Nat → Option ℚ :=
  fun i => if i < k then some (i : ℚ) else none

/-- The variant of `read` with the interpolation branch removed: after the
position update and the frame-consuming loop it returns the current source
frame directly, performing no lookahead decode and never blending.  Used to
state that `read` coincides with this path when the rounded weight is 0. -/
def readNoInterp {F : Type} (s : NVC F) : Bool × Option F × NVC F :=
  match s.cur_frame with
  | none =>
      let p := s.read_original false
      NVC.returnFrame p.1 { p.2 with cur_frame := p.1 }
  | some _ =>
      let s1 := { s with cur_pos := s.next_pos,
                         cur_frame := s.next_frame,
                         next_pos := s.next_pos + s.incr }
      let skipN : ℤ := ⌈round2 s1.next_pos⌉ - ⌈round2 s1.cur_pos⌉
      match NVC.skipLoop skipN.toNat s1 with
      | (false, s2) => (false, none, s2)
      | (true, s2) => NVC.returnFrame s2.cur_frame s2

/-- An operation on the resampler, for stating trace properties. -/
inductive Op where
  | rd
  | sk (d : ℚ)

/-- Apply one operation, keeping the state. -/
def applyOp {F : Type} (blend : ℚ → F → F → F) (s : NVC F) : Op → NVC F
  | .rd => (NVC.read blend s).2.2
  | .sk d => (NVC.skip s d).2.2

/-- Apply a sequence of operations. -/
def applyOps {F : Type} (blend : ℚ → F → F → F) (s : NVC F) : List Op → NVC F
  | [] => s
  | op :: ops => applyOps blend (applyOp blend s op) ops

/-- Every `skip` in the sequence has a non-negative duration. -/
def NonnegSkips (ops : List Op) : Prop := ∀ d : ℚ, Op.sk d ∈ ops → 0 ≤ d

/-- A source function with no holes: if frame `j+1` exists so does frame `j`
(every real capture satisfies this). -/
def StreamClosed {F : Type} (src : Nat → Option F) : Prop :=
  ∀ j, (src (j + 1)).isSome → (src j).isSome

/-- All source indices below `k` are present. -/
def allSome {F : Type} (src : Nat → Option F) (k : Nat) : Prop :=
  ∀ j, j < k → (src j).isSome

/-! ## Embedding of src/main.py (`find_changes` and its helpers) -/

/-- main.py line 18: `MIN_SIGNIFICANT_FRAME_LENGTH = timedelta(seconds=5)`. -/
def MIN_SIGNIFICANT_FRAME_LENGTH : ℚ := 5

/-- `timedelta(seconds=x).seconds`: the seconds component of the normalized
timedelta (days are split off by floor division). -/
def tdSeconds (x : ℚ) : ℤ := ⌊x⌋ % 86400

/-- The identity of a clip file: the whole-second timestamp written into the
name (`{t.year}-{t.month:02}-...-{t.hour:02}{t.minute:02}{t.second:02}`,
which drops sub-second precision), the bed number and the target rate. -/
structure Ident where
  t : ℤ
  bed : Nat
  rate : Nat
deriving DecidableEq

/-- A file in the output folder.  `dur = none` is an in-progress clip
(`...-r{rate}.avi`); `dur = some code` is a finalized clip
(`...-r{rate}-d{code:06}.avi`). -/
structure ClipFile (F : Type) where
  ident : Ident
  dur : Option ℤ
  frames : List F
deriving DecidableEq

/-- The parameters of `find_changes` (main.py line 53), with the change
detector (`has_significant_change`), the pixel blend of the resampler and
the timestamp blackout abstracted. -/
structure FCParams (F : Type) where
  sig : F → F → Bool
  blend : ℚ → F → F → F
  useBo : Bool
  bo : F → F
  date : ℚ
  bed : Nat
  target_fps : Nat
  qp : ℚ

/-- main.py line 67: `pad = queue_padding_in_seconds.seconds * target_fps`. -/
def FCParams.pad {F : Type} (P : FCParams F) : Nat :=
  (tdSeconds P.qp).toNat * P.target_fps

/-- `Queue.full()` for `Queue(maxsize=pad)`: true when `pad > 0` and the
queue holds at least `pad` items (a maxsize of 0 means unbounded). -/
def qFull {F : Type} (pad : Nat) (q : List F) : Bool :=
  decide (0 < pad) && decide (pad ≤ q.length)

/-- main.py lines 80-82 and 140-142: evict the oldest frame if the backlog
is full, then admit the new frame. -/
def putEvict {F : Type} (pad : Nat) (q : List F) (f : F) : List F :=
  (if qFull pad q then q.tail else q) ++ [f]

/-- main.py line 96: `filename.exists()` for the in-progress name. -/
def hasInProg {F : Type} (fs : List (ClipFile F)) (id : Ident) : Bool :=
  fs.any fun c => decide (c.ident = id) && c.dur.isNone

/-- main.py line 98 / line 155: `filename.unlink()` for the in-progress name. -/
def eraseInProg {F : Type} (fs : List (ClipFile F)) (id : Ident) : List (ClipFile F) :=
  fs.filter fun c => !(decide (c.ident = id) && c.dur.isNone)

/-- main.py line 99: `glob(f"{filename.stem}-*.avi")` — the finalized files
sharing the clip identity. -/
def finalizedMatches {F : Type} (fs : List (ClipFile F)) (id : Ident) : List (ClipFile F) :=
  fs.filter fun c => decide (c.ident = id) && c.dur.isSome

/-- main.py lines 157-158: rename the in-progress file to the finalized name
carrying the encoded duration; the file keeps the frames the writer wrote. -/
def renameClip {F : Type} (fs : List (ClipFile F)) (id : Ident) (code : ℤ) (w : List F) :
    List (ClipFile F) :=
  fs.map fun c => if decide (c.ident = id) && c.dur.isNone then ⟨id, some code, w⟩ else c

/-- The state threaded through the per-frame loop of `find_changes`. -/
structure FCState (F : Type) where
  v : NVC F
  backlog : List F
  last_frame : Option F
  fs : List (ClipFile F)

/-- The state produced by the recording loop (main.py lines 127-146). -/
structure RecResult (F : Type) where
  v : NVC F
  backlog : List F
  last_frame : Option F
  w : List F
  end_time : ℚ

/-- The ways a run of `find_changes` can stop abnormally. -/
inductive RunErr where
  | tooManyClips
  | skipArityTypeError
  | outOfFuel
deriving DecidableEq

/-- main.py lines 77-78 and 137-138: black out the timestamp region when
`black_out_timestamps` is set (the pixel edit is abstracted as `bo`). -/
def applyBo {F : Type} (P : FCParams F) (f : F) : F :=
  if P.useBo then P.bo f else f

/-- `has_significant_change(f, last_frame)` as called by the loops, where
`last_frame` is an `Option`.  The `none` case is unreachable along the
code's control flow (both loops establish a frame first); Python would
raise inside `cv2.cvtColor` if it ever happened. -/
def sigO {F : Type} (P : FCParams F) (f : F) : Option F → Bool
  | some l => P.sig f l
  | none => false

/-- main.py lines 127-146: the inner recording loop
`while back_pad < pad: ...`.  `fuel` only bounds the number of iterations
(the Python loop can run for as long as significant frames keep arriving);
`none` means the fuel ran out, never a behavior of the code. -/
def recLoop {F : Type} (P : FCParams F) :
    Nat → Nat → NVC F → List F → Option F → List F → ℚ → Option (RecResult F)
  | 0, back_pad, v, backlog, lastf, w, end_time =>
    if P.pad ≤ back_pad then some ⟨v, backlog, lastf, w, end_time⟩ else none
  | fuel + 1, back_pad, v, backlog, lastf, w, end_time =>
    if P.pad ≤ back_pad then some ⟨v, backlog, lastf, w, end_time⟩
    else
        match NVC.read P.blend v with
        | (false, f, v1) => some ⟨v1, backlog, f, w, end_time⟩
        | (true, none, v1) => some ⟨v1, backlog, none, w, end_time⟩
        | (true, some f0, v1) =>
          let f := applyBo P f0
          let w1 := w ++ [f]
          let bl1 := putEvict P.pad backlog f
          if sigO P f lastf then
            recLoop P fuel 0 v1 bl1 (some f) w1 v1.time_read
          else
            recLoop P fuel (back_pad + 1) v1 bl1 (some f) w1 end_time

/-- main.py lines 119-158: one recording episode.  The writer is opened (the
in-progress file exists from that moment), the backlog is drained into it
and refilled with the same frames, the recording loop runs, and the clip is
finalized: discarded when the significant span is below the 5 s threshold,
renamed to the duration-encoded name otherwise. -/
def runEpisode {F : Type} (P : FCParams F) (fuel : Nat) (v : NVC F) (bl : List F)
    (lastf : Option F) (fs : List (ClipFile F)) (id : Ident) (ti so : ℚ) :
    Option (FCState F) :=
  let fs1 : List (ClipFile F) := ⟨id, none, []⟩ :: fs
  let w0 := bl
  match recLoop P fuel 0 v bl lastf w0 v.time_read with
  | none => none
  | some r =>
    let significant_frame_length := r.end_time - ti
    if significant_frame_length < MIN_SIGNIFICANT_FRAME_LENGTH then
      some ⟨r.v, r.backlog, r.last_frame, eraseInProg fs1 id⟩
    else
      let duration := r.v.time_read - so
      some ⟨r.v, r.backlog, r.last_frame, renameClip fs1 id (ratTrunc (duration * 100)) r.w⟩

/-- main.py lines 96-98: delete a stale in-progress file at the derived
name (a crashed prior attempt) before looking for finalized matches. -/
def resumeState {F : Type} (fs : List (ClipFile F)) (id : Ident) : List (ClipFile F) :=
  if hasInProg fs id then eraseInProg fs id else fs

/-- The clip identity derived at a detection (main.py lines 93-95):
`t = date + start_offset`, truncated to whole seconds by the name format. -/
def detectId {F : Type} (P : FCParams F) (so : ℚ) : Ident :=
  ⟨⌊P.date + so⌋, P.bed, P.target_fps⟩

/-- main.py lines 71-158: the outer per-frame loop of `find_changes`.
On a detection whose derived name already has more than one finalized
match the code raises (line 101); with exactly one match it reaches
`v.skip(duration, pad)` (line 110), but `NormalVideoCapture.skip`
(src/video.py line 113) accepts only the duration and returns a pair, so
Python raises a `TypeError` there — embedded as `skipArityTypeError`. -/
def fcLoop {F : Type} (P : FCParams F) : Nat → FCState F → Except RunErr (FCState F)
  | 0, _ => .error .outOfFuel
  | fuel + 1, st =>
    match NVC.read P.blend st.v with
    | (false, _, v1) => .ok ⟨v1, st.backlog, st.last_frame, st.fs⟩
    | (true, none, v1) => .ok ⟨v1, st.backlog, st.last_frame, st.fs⟩
    | (true, some f0, v1) =>
      let f := applyBo P f0
      let bl := putEvict P.pad st.backlog f
      match st.last_frame with
      | none => fcLoop P fuel ⟨v1, bl, some f, st.fs⟩
      | some lf =>
        if P.sig f lf then
          let ti := v1.time_read
          let so := max (ti - P.qp) 0
          let id := detectId P so
          let fs1 := resumeState st.fs id
          if 1 < (finalizedMatches fs1 id).length then .error .tooManyClips
          else if (finalizedMatches fs1 id).length = 1 then .error .skipArityTypeError
          else
            match runEpisode P fuel v1 bl (some lf) fs1 id ti so with
            | none => .error .outOfFuel
            | some st1 => fcLoop P fuel st1
        else fcLoop P fuel ⟨v1, bl, st.last_frame, st.fs⟩

/-- `find_changes` from an initial filesystem: wraps the capture in a
`NormalVideoCapture` with the target rate, starts with an empty backlog and
no baseline frame (main.py lines 63-70). -/
def find_changes {F : Type} (P : FCParams F) (src : Nat → Option F)
    (fps total : ℚ) (fs0 : List (ClipFile F)) (fuel : Nat) :
    Except RunErr (FCState F) :=
  fcLoop P fuel ⟨mkNVC src fps (P.target_fps : ℚ) total, [], none, fs0⟩

/-- A concrete parameter set used by witnesses and counterexamples:
frame-difference significance, exact affine blending, no blackout, epoch
date 0, bed 1, target rate 15, the default 10 s padding. -/
def exParams : FCParams ℚ :=
  ⟨fun f l => decide (f ≠ l), blendQ, false, id, 0, 1, 15, 10⟩

/-- Like `exParams` but with target rate 2 and 1 s padding (small runs). -/
def exParamsSmall : FCParams ℚ :=
  ⟨fun f l => decide (f ≠ l), blendQ, false, id, 0, 1, 2, 1⟩

/-- Like `exParams` but with zero padding (`Queue(maxsize=0)` is unbounded). -/
def exParamsZeroPad : FCParams ℚ :=
  ⟨fun f l => decide (f ≠ l), blendQ, false, id, 0, 1, 15, 0⟩

/-- A two-frame source stream with distinct frames 5 and 7. -/
def exSrc1 : Nat → Option ℚ :=
  fun i => if i = 0 then some 5 else if i = 1 then some 7 else none

/-- A stream with a single isolated change: frame 0 differs from the
constant tail of five frames (total 3 s at rate 2). -/
def exSrc6 : Nat → Option ℚ :=
  fun i => if i = 0 then some 0 else if i < 6 then some 1 else none

/-- The length of the backlog in a successful run result (0 on error). -/
def backlogLen {F : Type} : Except RunErr (FCState F) → Nat
  | .ok st => st.backlog.length
  | .error _ => 0

/-- Placeholder recording result (used only as a `getD` default). -/
def dummyRec : RecResult ℚ := ⟨mkNVC (fun _ => none) 0 0 0, [], none, [], 0⟩

/-- The resampler state after the first `read` on `exSrc1` at 15 fps. -/
def exV1 : NVC ℚ := ⟨exSrc1, 1, 15, 15, 2, 0, some 5, 0, none, 1, 1⟩

/-- A mid-stream resampler state (after the first `read` at 15 fps towards
15 fps): current frame 0, virtual position 0. -/
def exV9 : NVC ℚ := ⟨rampSrc 5, 1, 15, 15, 5, 0, some 0, 0, none, 1, 1⟩

/-- The resampler state after two `read`s on `exSrc6` at 2 fps. -/
def exV6 : NVC ℚ := ⟨exSrc6, 2, 2, 2, 6, 0, some 1, 1, none, 2, 2⟩

/-- Two finalized clip files sharing one identity (ambiguous resume state). -/
def exFs7 : List (ClipFile ℚ) :=
  [⟨⟨0, 1, 15⟩, some 100000, []⟩, ⟨⟨0, 1, 15⟩, some 200000, []⟩]

/-- Orchestrator state one frame into `exSrc1` with the ambiguous folder. -/
def st7 : FCState ℚ := ⟨exV1, [5], some 5, exFs7⟩

/-- A three-frame constant stream (no significant change ever fires). -/
def exSrcC8 : Nat → Option ℚ := fun i => if i < 3 then some 0 else none

/-- Initial orchestrator state on `exSrcC8` at 2 fps with empty folder. -/
def st08 : FCState ℚ := ⟨mkNVC exSrcC8 2 2 3, [], none, []⟩

/-- Placeholder orchestrator state (used only as a `getOk` default). -/
def dummyFC : FCState ℚ := ⟨mkNVC (fun _ => none) 0 0 0, [], none, []⟩

/-- Extract the final state of a successful run (default on error). -/
def getOk {F : Type} (e : Except RunErr (FCState F)) (dflt : FCState F) : FCState F :=
  match e with
  | .ok st => st
  | .error _ => dflt

/-- A permanently failed resampler: the current frame is gone and the next
raw decode fails, so every further `read` returns `(False, None)`. -/
def Stuck {F : Type} (s : NVC F) : Prop :=
  s.cur_frame = none ∧ s.src s.spos = none

/-- The steady-state invariant of the resampler after `j + 1` successful
reads when the native rate is the integer multiple `m` of the target rate
`t`: the virtual position sits exactly on source index `m * j`, that frame
is current, no lookahead frame is pending. -/
def StrideInv {F : Type} (src : Nat → Option F) (m : Nat) (t : ℚ) (j : Nat)
    (s : NVC F) : Prop :=
  s.src = src ∧ s.spos = m * j + 1 ∧ s.fps = (m : ℚ) * t ∧ s.target_fps = t ∧
  s.next_pos = ((m * j : Nat) : ℚ) ∧ s.cur_frame = src (m * j) ∧ s.next_frame = none

/-! ## Helper lemmas -/

lemma read_original_pres {F : Type} (s : NVC F) (b : Bool) :
    (s.read_original b).2.fps = s.fps ∧ (s.read_original b).2.target_fps = s.target_fps ∧
    (s.read_original b).2.cur_pos = s.cur_pos ∧ (s.read_original b).2.next_pos = s.next_pos ∧
    (s.read_original b).2.next_frame = s.next_frame ∧
    (s.read_original b).2.cur_frame = s.cur_frame ∧ (s.read_original b).2.src = s.src := by
  unfold NVC.read_original
  cases h : s.src s.spos <;> cases b <;> simp

lemma returnFrame_pres {F : Type} (f : Option F) (s : NVC F) :
    (NVC.returnFrame f s).2.2.fps = s.fps ∧
    (NVC.returnFrame f s).2.2.target_fps = s.target_fps ∧
    (NVC.returnFrame f s).2.2.cur_pos = s.cur_pos ∧
    (NVC.returnFrame f s).2.2.next_pos = s.next_pos ∧
    (NVC.returnFrame f s).2.2.cur_frame = s.cur_frame ∧
    (NVC.returnFrame f s).2.2.next_frame = s.next_frame ∧
    (NVC.returnFrame f s).2.2.src = s.src := by
  cases f <;> simp [NVC.returnFrame]

lemma skipLoop_pres {F : Type} (n : Nat) (s : NVC F) :
    (NVC.skipLoop n s).2.fps = s.fps ∧ (NVC.skipLoop n s).2.target_fps = s.target_fps ∧
    (NVC.skipLoop n s).2.cur_pos = s.cur_pos ∧ (NVC.skipLoop n s).2.next_pos = s.next_pos ∧
    (NVC.skipLoop n s).2.src = s.src := by
  induction n generalizing s with
  | zero => simp [NVC.skipLoop]
  | succ n ih =>
    unfold NVC.skipLoop
    cases hnf : s.next_frame with
    | some nf => simpa using ih _
    | none =>
      cases hsrc : s.src s.spos with
      | none => simp [NVC.read_original, hsrc]
      | some f => simpa [NVC.read_original, hsrc] using ih _

lemma grabLoop_pres {F : Type} (n : Nat) (ok : Bool) (s : NVC F) :
    (NVC.grabLoop n ok s).2.fps = s.fps ∧ (NVC.grabLoop n ok s).2.target_fps = s.target_fps ∧
    (NVC.grabLoop n ok s).2.cur_pos = s.cur_pos ∧ (NVC.grabLoop n ok s).2.next_pos = s.next_pos := by
  induction n generalizing ok s with
  | zero => simp [NVC.grabLoop]
  | succ n ih =>
    unfold NVC.grabLoop
    cases hsrc : s.src s.spos <;> simpa using ih _ _

/-- The state after `skip`: both positions advance by exactly
`duration * target_fps` and the rates are untouched. -/
lemma skip_state_fields {F : Type} (s : NVC F) (d : ℚ) :
    (s.skip d).2.1 = (ratTrunc (d * s.fps)).toNat ∧
    (s.skip d).2.2.next_pos = s.next_pos + d * s.target_fps ∧
    (s.skip d).2.2.cur_pos = s.cur_pos + d * s.target_fps ∧
    (s.skip d).2.2.fps = s.fps ∧ (s.skip d).2.2.target_fps = s.target_fps := by
  obtain ⟨h1, h2, h3, h4⟩ := grabLoop_pres ((ratTrunc (d * s.fps)).toNat) true s
  unfold NVC.skip
  simp [h1, h2, h3, h4]

@[simp] lemma read_original_fps {F : Type} (s : NVC F) (b : Bool) :
    (s.read_original b).2.fps = s.fps := (read_original_pres s b).1

@[simp] lemma read_original_tfps {F : Type} (s : NVC F) (b : Bool) :
    (s.read_original b).2.target_fps = s.target_fps := (read_original_pres s b).2.1

@[simp] lemma read_original_next_pos {F : Type} (s : NVC F) (b : Bool) :
    (s.read_original b).2.next_pos = s.next_pos := (read_original_pres s b).2.2.2.1

@[simp] lemma returnFrame_fps {F : Type} (f : Option F) (s : NVC F) :
    (NVC.returnFrame f s).2.2.fps = s.fps := (returnFrame_pres f s).1

@[simp] lemma returnFrame_tfps {F : Type} (f : Option F) (s : NVC F) :
    (NVC.returnFrame f s).2.2.target_fps = s.target_fps := (returnFrame_pres f s).2.1

@[simp] lemma returnFrame_next_pos {F : Type} (f : Option F) (s : NVC F) :
    (NVC.returnFrame f s).2.2.next_pos = s.next_pos := (returnFrame_pres f s).2.2.2.1

@[simp] lemma skipLoop_fps {F : Type} (n : Nat) (s : NVC F) :
    (NVC.skipLoop n s).2.fps = s.fps := (skipLoop_pres n s).1

@[simp] lemma skipLoop_tfps {F : Type} (n : Nat) (s : NVC F) :
    (NVC.skipLoop n s).2.target_fps = s.target_fps := (skipLoop_pres n s).2.1

@[simp] lemma skipLoop_next_pos {F : Type} (n : Nat) (s : NVC F) :
    (NVC.skipLoop n s).2.next_pos = s.next_pos := (skipLoop_pres n s).2.2.2.1

/-- The state after `read`: the virtual position either stays (first-frame
branch) or advances by exactly `incr`; the rates are untouched. -/
lemma read_state_fields {F : Type} (blend : ℚ → F → F → F) (s : NVC F) :
    ((NVC.read blend s).2.2.next_pos = s.next_pos ∨
      (NVC.read blend s).2.2.next_pos = s.next_pos + s.incr) ∧
    (NVC.read blend s).2.2.fps = s.fps ∧ (NVC.read blend s).2.2.target_fps = s.target_fps := by
  unfold NVC.read
  split
  · rcases hro : s.read_original false with ⟨fo, s1⟩
    have h2 := congrArg Prod.snd hro
    simp only at h2
    simp only [hro]
    cases fo <;> refine ⟨Or.inl ?_, ?_, ?_⟩ <;> simp [NVC.returnFrame, ← h2]
  · dsimp only
    split
    next s2 heq =>
      have h2 := congrArg Prod.snd heq
      simp only at h2
      refine ⟨Or.inr ?_, ?_, ?_⟩ <;> rw [← h2] <;> simp
    next s2 heq =>
      have h2 := congrArg Prod.snd heq
      simp only at h2
      split
      · refine ⟨Or.inr ?_, ?_, ?_⟩ <;> rw [← h2] <;> simp
      · split
        next s3 heq2 =>
          have h3 := congrArg Prod.snd heq2
          simp only at h3
          refine ⟨Or.inr ?_, ?_, ?_⟩ <;> rw [← h3, ← h2] <;> simp
        next nf s3 heq2 =>
          have h3 := congrArg Prod.snd heq2
          simp only at h3
          split <;> refine ⟨Or.inr ?_, ?_, ?_⟩ <;>
            simp [NVC.returnFrame, ← h3, ← h2]

lemma div_mono_of_nonneg {a b c : ℚ} (h : a ≤ b) (hc : 0 ≤ c) : a / c ≤ b / c := by
  rcases eq_or_lt_of_le hc with h0 | h0
  · simp [← h0]
  · exact (div_le_div_iff_of_pos_right h0).mpr h

lemma applyOp_mono {F : Type} (blend : ℚ → F → F → F) (s : NVC F) (op : Op)
    (h1 : 0 ≤ s.fps) (h2 : 0 ≤ s.target_fps) (h3 : ∀ d : ℚ, op = Op.sk d → 0 ≤ d) :
    s.next_pos ≤ (applyOp blend s op).next_pos ∧ (applyOp blend s op).fps = s.fps ∧
      (applyOp blend s op).target_fps = s.target_fps := by
  cases op with
  | rd =>
    obtain ⟨hp, hf, ht⟩ := read_state_fields blend s
    refine ⟨?_, hf, ht⟩
    rcases hp with hp | hp
    · exact le_of_eq hp.symm
    · show s.next_pos ≤ (NVC.read blend s).2.2.next_pos
      rw [hp]
      have h0 : 0 ≤ s.incr := div_nonneg h1 h2
      linarith
  | sk d =>
    have hd := h3 d rfl
    obtain ⟨-, hp, -, hf, ht⟩ := skip_state_fields s d
    refine ⟨?_, hf, ht⟩
    show s.next_pos ≤ (NVC.skip s d).2.2.next_pos
    rw [hp]
    nlinarith

lemma applyOps_mono {F : Type} (blend : ℚ → F → F → F) (ops : List Op) (s : NVC F)
    (h1 : 0 ≤ s.fps) (h2 : 0 ≤ s.target_fps) (h3 : NonnegSkips ops) :
    s.next_pos ≤ (applyOps blend s ops).next_pos ∧ (applyOps blend s ops).fps = s.fps ∧
      (applyOps blend s ops).target_fps = s.target_fps := by
  induction ops generalizing s with
  | nil => exact ⟨le_refl _, rfl, rfl⟩
  | cons op ops ih =>
    obtain ⟨hp, hf, ht⟩ := applyOp_mono blend s op h1 h2
      (fun d hd => h3 d (by rw [hd]; exact List.mem_cons_self _ _))
    obtain ⟨hp2, hf2, ht2⟩ := ih (applyOp blend s op) (hf ▸ h1) (ht ▸ h2)
      (fun d hd => h3 d (List.mem_cons_of_mem _ hd))
    exact ⟨le_trans hp hp2, hf2.trans hf, ht2.trans ht⟩

/-- Claim C10 (corrected): for every duration `d`, `skip(d)` returns
`count = max(0, int(d.total_seconds() * native_fps))` — counting every
attempted source-frame grab, including failed ones — and always advances
the virtual position by exactly `d.total_seconds() * target_fps`,
regardless of whether any grab failed; the position change is never rolled
back.  (The claim's unclamped `count = int(...)` fails for negative
durations, where Python's `range` is empty; see the counterexample.) -/
theorem C10_skip_count_and_offset {F : Type} (s : NVC F) (d : ℚ) :
    (s.skip d).2.1 = (ratTrunc (d * s.fps)).toNat ∧
    (s.skip d).2.2.next_pos = s.next_pos + d * s.target_fps ∧
    (s.skip d).2.2.cur_pos = s.cur_pos + d * s.target_fps := by
  obtain ⟨h1, h2, h3, -, -⟩ := skip_state_fields s d
  exact ⟨h1, h2, h3⟩

/-- Claim C10, counterexample to the claim as stated: at duration −1 s and
native rate 10 the returned count is 0, not `int(-1 * 10) = -10`. -/
theorem C10_counterexample :
    ((mkNVC (rampSrc 5) 10 15 5).skip (-1)).2.1 = 0 ∧ ratTrunc ((-1 : ℚ) * 10) = -10 := by
  constructor
  · with_unfolding_all rfl
  · with_unfolding_all rfl

/-- Claim C4 (corrected, "non-negative durations" added): for every
sequence of `read`s and `skip`s with non-negative durations, on a state
with non-negative rates, the reported elapsed time `time_read` never
decreases: each `skip` adds a non-negative offset to the virtual position
and each `read` advances it by `native_rate/target_rate` or leaves it
unchanged. -/
theorem C4_time_read_monotone {F : Type} (blend : ℚ → F → F → F) (ops : List Op)
    (s : NVC F) (h1 : 0 ≤ s.fps) (h2 : 0 ≤ s.target_fps) (h3 : NonnegSkips ops) :
    s.time_read ≤ (applyOps blend s ops).time_read := by
  obtain ⟨hp, hf, -⟩ := applyOps_mono blend ops s h1 h2 h3
  unfold NVC.time_read NVC.pos
  rw [hf]
  exact div_mono_of_nonneg hp h1

/-- Claim C4, witness: a concrete skip of 1 s followed by two reads, at
10 fps towards 15 fps, keeps `time_read` non-decreasing. -/
theorem C4_witness :
    NVC.time_read (mkNVC (rampSrc 5) 10 15 5) ≤
      NVC.time_read (applyOps blendQ (mkNVC (rampSrc 5) 10 15 5) [Op.sk 1, Op.rd, Op.rd]) :=
  C4_time_read_monotone blendQ [Op.sk 1, Op.rd, Op.rd] (mkNVC (rampSrc 5) 10 15 5)
    (by norm_num [mkNVC]) (by norm_num [mkNVC])
    (by intro d hd; simp only [List.mem_cons] at hd
        rcases hd with h | h | h <;> simp_all)

/-- Claim C4, counterexample to the claim as stated: `skip` with the
negative duration −1 s (reachable from the resume path in main.py, where
the computed remaining duration can be negative) strictly decreases
`time_read`. -/
theorem C4_counterexample :
    NVC.time_read (applyOps blendQ (mkNVC (rampSrc 5) 10 15 5) [Op.sk (-1)]) <
      NVC.time_read (mkNVC (rampSrc 5) 10 15 5) := by
  have h1 : NVC.time_read (applyOps blendQ (mkNVC (rampSrc 5) 10 15 5) [Op.sk (-1)]) =
      -3/2 := by with_unfolding_all rfl
  have h2 : NVC.time_read (mkNVC (rampSrc 5) 10 15 5) = 0 := by with_unfolding_all rfl
  rw [h1, h2]
  norm_num

/-- Claim C3 (code bug): with native rate 11 and target rate 10
(`incr = 1.1`), a 5-frame source yields 11 successful `read`s before
exhaustion is reported, while the spec's testable property promises
`ceil(5 / 1.1) = 5` frames (±1).  The end-of-stream fallback in the
lookahead decode (src/video.py line 104, `use_fallback = skip_n > 0`)
re-installs the stale frame as `_next_frame`, so reads keep succeeding
long after the source is drained. -/
theorem C3_phantom_reads :
    countReads blendQ 20 (mkNVC (rampSrc 5) 11 10 5) = 11 ∧
      ⌈(5 : ℚ) / ((11 : ℚ) / 10)⌉ = 5 := by
  constructor
  · with_unfolding_all rfl
  · with_unfolding_all rfl

/-- Claim C1 (code bug): in the resume scenario — a detection whose derived
clip name has exactly one finalized match on disk — `find_changes` reaches
`v.skip(duration, pad)` (main.py line 110), which unpacks three values from
a method whose signature is `skip(duration) -> (success, count)`
(src/video.py line 113): Python raises a `TypeError`, so no skip is
performed, the backlog is not refilled, and the run aborts instead of
remaining in SCANNING. -/
theorem C1_resume_skip_raises :
    find_changes exParams exSrc1 15 2 [⟨⟨0, 1, 15⟩, some 100000, []⟩] 10 =
      .error .skipArityTypeError := by
  with_unfolding_all rfl

/-- Rounding to two decimals sends anything in `[0, 1/200]` to zero
(Python's banker's rounding resolves the tie at 0.005 downwards). -/
lemma round2_eq_zero {x : ℚ} (h0 : 0 ≤ x) (h1 : x ≤ 1/200) : round2 x = 0 := by
  have hf : ⌊(100 * x : ℚ)⌋ = 0 := by
    rw [Int.floor_eq_zero_iff]
    exact Set.mem_Ico.mpr ⟨by linarith, by linarith⟩
  unfold round2 rhe
  rw [hf]
  dsimp only
  simp only [Int.cast_zero, sub_zero]
  split_ifs with h2 h3 h4
  · norm_num
  · exfalso; linarith
  · norm_num
  · exact absurd rfl h4

/-- Claim C9 (corrected): `read` rounds the virtual position to two
decimals both in the frame-consuming count and in the weight; whenever the
fractional part of the new virtual position is at most 0.005 (the position
is within 0.005 at or above an integer source index, so the weight rounds
to 0.00), `read` coincides with the no-interpolation path: the consumed
source frame is returned unmodified, no lookahead decode is performed and
`blend` is never applied.  (Within 0.005 *below* an integer the weight
instead rounds to 1.00 and a lookahead decode does occur — see the
counterexample.) -/
theorem C9_round_to_no_interp {F : Type} (blend : ℚ → F → F → F) (s : NVC F)
    (h : Int.fract (s.next_pos + s.incr) ≤ 1/200) :
    NVC.read blend s = readNoInterp s := by
  unfold NVC.read readNoInterp
  split
  · rfl
  · dsimp only
    split
    next s2 heq => rfl
    next s2 heq =>
      have h2 := congrArg Prod.snd heq
      simp only at h2
      have hp2 : s2.next_pos = s.next_pos + s.incr := by
        rw [← h2, skipLoop_next_pos]
      have hz : round2 (Int.fract s2.next_pos) = 0 := by
        rw [hp2]
        exact round2_eq_zero (Int.fract_nonneg _) h
      rw [if_pos hz]

/-- Claim C9, witness: on a state with integral position the next `read`
takes the no-interpolation path. -/
theorem C9_witness : NVC.read blendQ exV9 = readNoInterp exV9 :=
  C9_round_to_no_interp blendQ exV9 (by
    show Int.fract ((0 : ℚ) + NVC.incr exV9) ≤ 1/200
    norm_num [exV9, NVC.incr, Int.fract])

/-- Claim C9, counterexample to the claim as stated: with native rate 499
and target 250 the second read lands at position 1.996, within 0.005 of
source index 2, yet the interpolation lookahead DOES run — a fourth source
frame is decoded and stored as `_next_frame` (the rounded weight is 1.00,
not 0.00), and the output is produced through a weight-1 blend; it is
numerically frame 2, but not via the claimed no-lookahead path. -/
theorem C9_counterexample :
    (2 : ℚ) - (nthRead blendQ 1 (mkNVC (rampSrc 6) 499 250 6)).2.2.next_pos < 1/200 ∧
    (0 : ℚ) < 2 - (nthRead blendQ 1 (mkNVC (rampSrc 6) 499 250 6)).2.2.next_pos ∧
    (nthRead blendQ 1 (mkNVC (rampSrc 6) 499 250 6)).2.2.orig_frames_read = 4 ∧
    (nthRead blendQ 1 (mkNVC (rampSrc 6) 499 250 6)).2.2.next_frame = some 3 ∧
    (nthRead blendQ 1 (mkNVC (rampSrc 6) 499 250 6)).2.1 = some 2 := by
  have hp : (nthRead blendQ 1 (mkNVC (rampSrc 6) 499 250 6)).2.2.next_pos = 499/250 := by
    with_unfolding_all rfl
  refine ⟨by rw [hp]; norm_num, by rw [hp]; norm_num, ?_, ?_, ?_⟩
  · with_unfolding_all rfl
  · with_unfolding_all rfl
  · with_unfolding_all rfl

lemma putEvict_len {F : Type} {pad : Nat} (h0 : 0 < pad) (q : List F) (f : F)
    (hq : q.length ≤ pad) : (putEvict pad q f).length ≤ pad := by
  unfold putEvict qFull
  split
  next hfull =>
    simp only [Bool.and_eq_true, decide_eq_true_eq] at hfull
    simp [List.length_tail]
    omega
  next hfull =>
    simp only [Bool.and_eq_true, decide_eq_true_eq, not_and, not_le] at hfull
    have := hfull h0
    simp
    omega

lemma putEvict_full {F : Type} {pad : Nat} (h0 : 0 < pad) (q : List F) (f : F)
    (hq : pad ≤ q.length) : putEvict pad q f = q.tail ++ [f] := by
  unfold putEvict qFull
  rw [if_pos]
  simp [h0, hq]

lemma recLoop_backlog {F : Type} (P : FCParams F) (h0 : 0 < P.pad) :
    ∀ (fuel bp : Nat) (v : NVC F) (bl : List F) (lastf : Option F) (w : List F) (et : ℚ)
      (r : RecResult F), bl.length ≤ P.pad →
      recLoop P fuel bp v bl lastf w et = some r → r.backlog.length ≤ P.pad := by
  intro fuel
  induction fuel with
  | zero =>
    intro bp v bl lastf w et r hb h
    unfold recLoop at h
    split at h
    · cases h; exact hb
    · exact absurd h (by simp)
  | succ fuel ih =>
    intro bp v bl lastf w et r hb h
    unfold recLoop at h
    split at h
    · cases h; exact hb
    · split at h
      next v1 heq => cases h; exact hb
      next v1 heq => cases h; exact hb
      next f0 v1 heq =>
        dsimp only at h
        split at h <;> exact ih _ _ _ _ _ _ _ (putEvict_len h0 _ _ hb) h

lemma runEpisode_backlog {F : Type} (P : FCParams F) (h0 : 0 < P.pad)
    (fuel : Nat) (v : NVC F) (bl : List F) (lastf : Option F) (fs : List (ClipFile F))
    (id : Ident) (ti so : ℚ) (st1 : FCState F) (hbl : bl.length ≤ P.pad)
    (h : runEpisode P fuel v bl lastf fs id ti so = some st1) :
    st1.backlog.length ≤ P.pad := by
  unfold runEpisode at h
  dsimp only at h
  split at h
  · exact absurd h (by simp)
  next r hrec =>
    have hr := recLoop_backlog P h0 fuel 0 v bl lastf bl (v.time_read) r hbl hrec
    split at h <;> (cases h; exact hr)

lemma fcLoop_backlog {F : Type} (P : FCParams F) (h0 : 0 < P.pad) :
    ∀ (fuel : Nat) (st st' : FCState F), st.backlog.length ≤ P.pad →
      fcLoop P fuel st = .ok st' → st'.backlog.length ≤ P.pad := by
  intro fuel
  induction fuel with
  | zero => intro st st' hb h; exact absurd h (by simp [fcLoop])
  | succ fuel ih =>
    intro st st' hb h
    unfold fcLoop at h
    split at h
    next v1 heq => cases h; exact hb
    next v1 heq => cases h; exact hb
    next f0 v1 heq =>
      dsimp only at h
      split at h
      · exact ih _ _ (putEvict_len h0 _ _ hb) h
      next lf hlf =>
        split at h
        · split at h
          · exact absurd h (by simp)
          · split at h
            · exact absurd h (by simp)
            · split at h
              next heps => exact absurd h (by simp)
              next st1 heps =>
                exact ih _ _
                  (runEpisode_backlog P h0 _ _ _ _ _ _ _ _ _ (putEvict_len h0 _ _ hb) heps) h
        · exact ih _ _ (putEvict_len h0 _ _ hb) h

/-- Claim C7 (confirmed): when, at a detection, more than one finalized
clip file matches the derived name, the per-frame loop aborts with the
fatal "too many clips" error (main.py line 101); the ambiguity is never
silently resolved and no recording episode runs for that detection. -/
theorem C7_ambiguous_fatal {F : Type} (P : FCParams F) (fuel : Nat) (st : FCState F)
    (f0 lf : F) (v1 : NVC F)
    (h1 : NVC.read P.blend st.v = (true, some f0, v1))
    (h2 : st.last_frame = some lf)
    (h3 : P.sig (applyBo P f0) lf = true)
    (h4 : 1 < (finalizedMatches
        (resumeState st.fs (detectId P (max (v1.time_read - P.qp) 0)))
        (detectId P (max (v1.time_read - P.qp) 0))).length) :
    fcLoop P (fuel + 1) st = .error .tooManyClips := by
  unfold fcLoop
  rw [h1]
  dsimp only
  rw [h2]
  dsimp only
  rw [h3]
  simp only [eq_self_iff_true, if_true]
  rw [if_pos h4]

/-- Claim C7, witness: a concrete detection over a folder holding two
finalized clips with the same identity aborts fatally. -/
theorem C7_witness : fcLoop exParams 10 st7 = .error .tooManyClips :=
  C7_ambiguous_fatal exParams 9 st7 7 5 ((NVC.read exParams.blend st7.v).2.2)
    (by with_unfolding_all rfl) rfl (by with_unfolding_all rfl)
    (of_decide_eq_true (by with_unfolding_all rfl))

/-- Claim C8 (corrected, "N ≥ 1" added): with `N = pad ≥ 1`, every backlog
operation of the per-frame loop preserves `length ≤ N`: the evict-then-put
admission keeps the bound and, once full, removes the oldest frame before
admitting; the recording loop and the whole per-frame loop preserve the
bound from any state satisfying it.  (With N = 0 — padding below one
second — `Queue(maxsize=0)` is unbounded and the bound fails; see the
counterexample.) -/
theorem C8_backlog_bound {F : Type} (P : FCParams F) (h0 : 0 < P.pad) :
    (∀ (q : List F) (f : F), q.length ≤ P.pad → (putEvict P.pad q f).length ≤ P.pad) ∧
    (∀ (q : List F) (f : F), P.pad ≤ q.length → putEvict P.pad q f = q.tail ++ [f]) ∧
    (∀ (fuel bp : Nat) (v : NVC F) (bl : List F) (lastf : Option F) (w : List F) (et : ℚ)
        (r : RecResult F), bl.length ≤ P.pad →
        recLoop P fuel bp v bl lastf w et = some r → r.backlog.length ≤ P.pad) ∧
    (∀ (fuel : Nat) (st st' : FCState F), st.backlog.length ≤ P.pad →
        fcLoop P fuel st = .ok st' → st'.backlog.length ≤ P.pad) :=
  ⟨fun q f hq => putEvict_len h0 q f hq,
   fun q f hq => putEvict_full h0 q f hq,
   recLoop_backlog P h0,
   fcLoop_backlog P h0⟩

/-- Claim C8, witness: a concrete 3-frame run at padding 1 s × rate 2
(`N = 2`) ends with a backlog of at most 2 frames. -/
theorem C8_witness :
    (getOk (fcLoop exParamsSmall 10 st08) dummyFC).backlog.length ≤ exParamsSmall.pad :=
  (C8_backlog_bound exParamsSmall (of_decide_eq_true (by with_unfolding_all rfl))).2.2.2
    10 st08 (getOk (fcLoop exParamsSmall 10 st08) dummyFC)
    (of_decide_eq_true (by with_unfolding_all rfl))
    (by with_unfolding_all rfl)

/-- Claim C8, counterexample to the claim as stated: with zero pre-roll
padding, `N = 0` but `Queue(maxsize=0)` is unbounded, so after a 3-frame
scan the backlog holds 3 frames and the bound `length ≤ N` fails. -/
theorem C8_counterexample :
    exParamsZeroPad.pad < backlogLen (find_changes exParamsZeroPad exSrcC8 15 3 [] 10) :=
  of_decide_eq_true (by with_unfolding_all rfl)

lemma eraseInProg_cons_fs {F : Type} (fs : List (ClipFile F)) (id : Ident) (w : List F)
    (hfs : ∀ c ∈ fs, c.ident ≠ id) :
    eraseInProg (⟨id, none, w⟩ :: fs) id = fs := by
  unfold eraseInProg
  rw [List.filter_cons_of_neg, List.filter_eq_self.mpr]
  · intro c hc
    simp [hfs c hc]
  · simp

lemma renameClip_untouched {F : Type} (fs : List (ClipFile F)) (id : Ident) (code : ℤ)
    (w : List F) (hfs : ∀ c ∈ fs, c.ident ≠ id) :
    renameClip fs id code w = fs := by
  induction fs with
  | nil => rfl
  | cons c cs ih =>
    unfold renameClip at ih ⊢
    rw [List.map_cons]
    rw [if_neg (by simp [hfs c (List.mem_cons_self _ _)])]
    rw [ih (fun c hc => hfs c (List.mem_cons_of_mem _ hc))]

lemma renameClip_cons_fs {F : Type} (fs : List (ClipFile F)) (id : Ident) (code : ℤ)
    (w wold : List F) (hfs : ∀ c ∈ fs, c.ident ≠ id) :
    renameClip (⟨id, none, wold⟩ :: fs) id code w = ⟨id, some code, w⟩ :: fs := by
  unfold renameClip
  rw [List.map_cons, if_pos (by simp)]
  have h := renameClip_untouched fs id code w hfs
  unfold renameClip at h
  rw [h]

/-- Claim C6 (confirmed): a recording episode that completes its inner loop
finalizes as follows, where `r.end_time` is the code's
`last_significant_time` tracker and `ti` the detection time: if the
significant span `r.end_time - ti` is below the 5 s threshold
`MIN_SIGNIFICANT_FRAME_LENGTH`, the in-progress file created at episode
start is deleted and the folder is exactly as before (no finalized file
produced); otherwise the in-progress file is renamed to the finalized name
encoding `int(100 * duration)` with `duration = time_read - start_offset`,
the elapsed target-stream time from clip start to end. -/
theorem C6_finalize_rule {F : Type} (P : FCParams F) (fuel : Nat) (v : NVC F) (bl : List F)
    (lastf : Option F) (fs : List (ClipFile F)) (id : Ident) (ti so : ℚ) (r : RecResult F)
    (hrec : recLoop P fuel 0 v bl lastf bl v.time_read = some r)
    (hfs : ∀ c ∈ fs, c.ident ≠ id) :
    (r.end_time - ti < MIN_SIGNIFICANT_FRAME_LENGTH →
      runEpisode P fuel v bl lastf fs id ti so = some ⟨r.v, r.backlog, r.last_frame, fs⟩) ∧
    (MIN_SIGNIFICANT_FRAME_LENGTH ≤ r.end_time - ti →
      runEpisode P fuel v bl lastf fs id ti so =
        some ⟨r.v, r.backlog, r.last_frame,
          ⟨id, some (ratTrunc ((r.v.time_read - so) * 100)), r.w⟩ :: fs⟩) := by
  unfold runEpisode
  dsimp only
  rw [hrec]
  dsimp only
  constructor
  · intro hspan
    rw [if_pos hspan, eraseInProg_cons_fs fs id [] hfs]
  · intro hspan
    rw [if_neg (not_lt.mpr hspan), renameClip_cons_fs fs id _ _ [] hfs]

/-- Claim C6, witness: the spec's discard scenario — a single isolated
significant frame (`exSrc6`) whose episode has a significant span of 0.5 s,
far below 5 s — deletes the in-progress file and finalizes nothing; the
output folder ends empty. -/
theorem C6_witness :
    runEpisode exParamsSmall 18 exV6 [0, 1] (some 0) [] ⟨0, 1, 2⟩ (1/2) 0 =
      some ⟨((recLoop exParamsSmall 18 0 exV6 [0, 1] (some 0) [0, 1]
                (NVC.time_read exV6)).getD dummyRec).v,
            ((recLoop exParamsSmall 18 0 exV6 [0, 1] (some 0) [0, 1]
                (NVC.time_read exV6)).getD dummyRec).backlog,
            ((recLoop exParamsSmall 18 0 exV6 [0, 1] (some 0) [0, 1]
                (NVC.time_read exV6)).getD dummyRec).last_frame, []⟩ :=
  (C6_finalize_rule exParamsSmall 18 exV6 [0, 1] (some 0) [] ⟨0, 1, 2⟩ (1/2) 0
    ((recLoop exParamsSmall 18 0 exV6 [0, 1] (some 0) [0, 1]
        (NVC.time_read exV6)).getD dummyRec)
    (by with_unfolding_all rfl) (by simp)).1
    (by
      have h : ((recLoop exParamsSmall 18 0 exV6 [0, 1] (some 0) [0, 1]
          (NVC.time_read exV6)).getD dummyRec).end_time = 1 := by with_unfolding_all rfl
      rw [h, MIN_SIGNIFICANT_FRAME_LENGTH]
      norm_num)

lemma rhe_intCast (z : ℤ) : rhe ((z : ℚ)) = z := by
  unfold rhe
  rw [Int.floor_intCast]
  simp

lemma round2_intCast (z : ℤ) : round2 ((z : ℚ)) = (z : ℚ) := by
  unfold round2
  have h : (100 : ℚ) * z = ((100 * z : ℤ) : ℚ) := by push_cast; ring
  rw [h, rhe_intCast]
  push_cast
  ring

lemma ceil_round2_natCast (n : Nat) : ⌈round2 ((n : ℚ))⌉ = (n : ℤ) := by
  have h : ((n : ℚ)) = (((n : ℤ) : ℚ)) := by push_cast; ring
  rw [h, round2_intCast, Int.ceil_intCast]

lemma round2_zero : round2 0 = 0 :=
  round2_eq_zero (le_refl 0) (by norm_num)

lemma iterRead_succ_back {F : Type} (blend : ℚ → F → F → F) :
    ∀ (n : Nat) (s : NVC F),
      iterRead blend (n + 1) s = (NVC.read blend (iterRead blend n s)).2.2 := by
  intro n
  induction n with
  | zero => intro s; rfl
  | succ n ih =>
    intro s
    show iterRead blend (n + 1) ((NVC.read blend s).2.2) = _
    rw [ih]
    rfl

lemma stuck_read {F : Type} (blend : ℚ → F → F → F) (s : NVC F) (h : Stuck s) :
    NVC.read blend s = (false, none, s) := by
  obtain ⟨h1, h2⟩ := h
  cases s
  simp_all [NVC.read, NVC.read_original, NVC.returnFrame]

lemma skipLoop_fresh {F : Type} :
    ∀ (n : Nat) (s : NVC F), s.next_frame = none →
      (∀ i, i ≤ n → (s.src (s.spos + i)).isSome) →
      NVC.skipLoop (n + 1) s = (true,
        { s with spos := s.spos + (n + 1),
                 orig_frames_read := s.orig_frames_read + (n + 1),
                 cur_frame := s.src (s.spos + n) }) := by
  intro n
  induction n with
  | zero =>
    intro s hnf hsome
    obtain ⟨f, hf⟩ := Option.isSome_iff_exists.mp (hsome 0 (le_refl 0))
    rw [Nat.add_zero] at hf
    obtain ⟨sc, sp, fp, tf, tt, cp, cf, np, nf, rc, og⟩ := s
    simp only at hnf hf ⊢
    subst hnf
    unfold NVC.skipLoop NVC.read_original
    dsimp only
    rw [hf]
    simp [NVC.skipLoop, hf]
  | succ n ih =>
    intro s hnf hsome
    obtain ⟨f, hf⟩ := Option.isSome_iff_exists.mp (hsome 0 (Nat.zero_le _))
    rw [Nat.add_zero] at hf
    obtain ⟨sc, sp, fp, tf, tt, cp, cf, np, nf, rc, og⟩ := s
    simp only at hnf hf hsome ⊢
    subst hnf
    unfold NVC.skipLoop NVC.read_original
    dsimp only
    rw [hf]
    dsimp only
    rw [ih _ rfl (fun i hi => by
      show (sc (sp + 1 + i)).isSome
      have h2 := hsome (i + 1) (by omega)
      rwa [show sp + (i + 1) = sp + 1 + i by omega] at h2)]
    have e1 : sp + 1 + (n + 1) = sp + (n + 1 + 1) := by omega
    have e2 : og + 1 + (n + 1) = og + (n + 1 + 1) := by omega
    have e3 : sp + 1 + n = sp + (n + 1) := by omega
    dsimp only
    rw [e1, e2, e3]

lemma skipLoop_fail {F : Type} :
    ∀ (n : Nat) (s : NVC F), s.next_frame = none →
      ¬(∀ i, i < n → (s.src (s.spos + i)).isSome) →
      (NVC.skipLoop n s).1 = false ∧ Stuck (NVC.skipLoop n s).2 := by
  intro n
  induction n with
  | zero => intro s hnf hmiss; exact absurd (fun i hi => absurd hi (by omega)) hmiss
  | succ n ih =>
    intro s hnf hmiss
    obtain ⟨sc, sp, fp, tf, tt, cp, cf, np, nf, rc, og⟩ := s
    simp only at hnf hmiss ⊢
    subst hnf
    cases h0 : sc sp with
    | none =>
      unfold NVC.skipLoop NVC.read_original
      dsimp only
      rw [h0]
      exact ⟨rfl, rfl, h0⟩
    | some f =>
      unfold NVC.skipLoop NVC.read_original
      dsimp only
      rw [h0]
      dsimp only
      refine ih _ rfl (fun hall => hmiss ?_)
      intro i hi
      cases i with
      | zero => simpa using Option.isSome_iff_exists.mpr ⟨f, h0⟩
      | succ i =>
        have h2 := hall i (by omega)
        show (sc (sp + (i + 1))).isSome
        rwa [show sp + (i + 1) = sp + 1 + i by omega]

set_option maxHeartbeats 1000000 in
lemma stride_step {F : Type} (blend : ℚ → F → F → F) (src : Nat → Option F) (m' : Nat)
    (t : ℚ) (ht : t ≠ 0) (j : Nat) (s : NVC F)
    (hinv : StrideInv src (m' + 1) t j s)
    (hprev : ∀ i, i ≤ (m' + 1) * j → (src i).isSome) :
    ((∀ i, i ≤ (m' + 1) * (j + 1) → (src i).isSome) →
      (NVC.read blend s).1 = true ∧
      (NVC.read blend s).2.1 = src ((m' + 1) * (j + 1)) ∧
      StrideInv src (m' + 1) t (j + 1) (NVC.read blend s).2.2) ∧
    ((¬∀ i, i ≤ (m' + 1) * (j + 1) → (src i).isSome) →
      (NVC.read blend s).1 = false ∧ (NVC.read blend s).2.1 = none ∧
      Stuck (NVC.read blend s).2.2) := by
  obtain ⟨hsrc, hspos, hfps, htf, hnp, hcf, hnf⟩ := hinv
  obtain ⟨c, hc⟩ := Option.isSome_iff_exists.mp (hprev ((m' + 1) * j) (le_refl _))
  obtain ⟨sc, sp, fp, tf, tt, cp, cf, np, nf, rc, og⟩ := s
  simp only at hsrc hspos hfps htf hnp hcf hnf
  subst sc sp fp tf np cf nf
  have hdiv : ((m' + 1 : ℕ) : ℚ) * t / t = ((m' + 1 : ℕ) : ℚ) := mul_div_cancel_right₀ _ ht
  have hsum : (((m' + 1) * j : ℕ) : ℚ) + ((m' + 1 : ℕ) : ℚ) =
      (((m' + 1) * (j + 1) : ℕ) : ℚ) := by push_cast; ring
  have hskN : ((((m' + 1) * (j + 1) : ℕ) : ℤ)) - (((m' + 1) * j : ℕ) : ℤ) =
      ((m' + 1 : ℕ) : ℤ) := by push_cast; ring
  constructor
  · intro hall
    unfold NVC.read
    dsimp only
    simp only [hc, NVC.incr]
    simp only [hdiv, hsum, ceil_round2_natCast, hskN, Int.toNat_natCast]
    rw [skipLoop_fresh m'
      ⟨src, (m' + 1) * j + 1, ((m' + 1 : ℕ) : ℚ) * t, t, tt, (((m' + 1) * j : ℕ) : ℚ), none,
       (((m' + 1) * (j + 1) : ℕ) : ℚ), none, rc, og⟩ rfl
      (fun i hi => by
        dsimp only
        refine hall ((m' + 1) * j + 1 + i) ?_
        have hexp2 : (m' + 1) * (j + 1) = (m' + 1) * j + (m' + 1) := by ring
        omega)]
    dsimp only
    rw [Int.fract_natCast, round2_zero, if_pos rfl]
    have hidx : (m' + 1) * j + 1 + m' = (m' + 1) * (j + 1) := by ring
    rw [hidx]
    obtain ⟨c2, hc2⟩ := Option.isSome_iff_exists.mp (hall ((m' + 1) * (j + 1)) (le_refl _))
    rw [hc2]
    unfold NVC.returnFrame
    dsimp only
    refine ⟨rfl, rfl, rfl, by ring, rfl, rfl, rfl, hc2.symm, rfl⟩
  · intro hmiss
    unfold NVC.read
    dsimp only
    simp only [hc, NVC.incr]
    simp only [hdiv, hsum, ceil_round2_natCast, hskN, Int.toNat_natCast]
    have hexp : (m' + 1) * (j + 1) = (m' + 1) * j + (m' + 1) := by ring
    have hmiss2 : ¬(∀ i, i < m' + 1 →
        ((src ((m' + 1) * j + 1 + i) : Option F)).isSome) := by
      intro hall2
      apply hmiss
      intro i hi
      by_cases hle : i ≤ (m' + 1) * j
      · exact hprev i hle
      · have hidx2 : i = (m' + 1) * j + 1 + (i - ((m' + 1) * j + 1)) := by omega
        rw [hidx2]
        exact hall2 _ (by omega)
    have hfl := skipLoop_fail (m' + 1)
      ⟨src, (m' + 1) * j + 1, ((m' + 1 : ℕ) : ℚ) * t, t, tt, (((m' + 1) * j : ℕ) : ℚ), none,
       (((m' + 1) * (j + 1) : ℕ) : ℚ), none, rc, og⟩ rfl (by dsimp only; exact hmiss2)
    rcases hq : NVC.skipLoop (m' + 1)
      ⟨src, (m' + 1) * j + 1, ((m' + 1 : ℕ) : ℚ) * t, t, tt, (((m' + 1) * j : ℕ) : ℚ), none,
       (((m' + 1) * (j + 1) : ℕ) : ℚ), none, rc, og⟩ with ⟨b, s2⟩
    rw [hq] at hfl
    obtain ⟨hb, hstuck⟩ := hfl
    dsimp only at hb
    subst hb
    dsimp only at hstuck ⊢
    exact ⟨rfl, rfl, hstuck⟩

lemma closed_all {F : Type} (src : Nat → Option F) (h : StreamClosed src) :
    ∀ k, (src k).isSome → ∀ i, i ≤ k → (src i).isSome := by
  intro k
  induction k with
  | zero =>
    intro h0 i hi
    rwa [Nat.le_zero.mp hi]
  | succ k ih =>
    intro hk i hi
    rcases Nat.lt_or_ge i (k + 1) with h1 | h2
    · exact ih (h k hk) i (by omega)
    · rwa [show i = k + 1 by omega]

lemma rampSrc_closed (n : Nat) : StreamClosed (rampSrc n) := by
  intro j h
  unfold rampSrc at *
  split at h
  · rw [if_pos (by omega)]
    rfl
  · simp at h

lemma stride_base {F : Type} (blend : ℚ → F → F → F) (src : Nat → Option F) (m' : Nat)
    (t total : ℚ) :
    ((src 0).isSome →
      (NVC.read blend (mkNVC src (((m' + 1 : ℕ) : ℚ) * t) t total)).1 = true ∧
      (NVC.read blend (mkNVC src (((m' + 1 : ℕ) : ℚ) * t) t total)).2.1 = src 0 ∧
      StrideInv src (m' + 1) t 0
        (NVC.read blend (mkNVC src (((m' + 1 : ℕ) : ℚ) * t) t total)).2.2) ∧
    (¬(src 0).isSome →
      (NVC.read blend (mkNVC src (((m' + 1 : ℕ) : ℚ) * t) t total)).1 = false ∧
      (NVC.read blend (mkNVC src (((m' + 1 : ℕ) : ℚ) * t) t total)).2.1 = none ∧
      Stuck (NVC.read blend (mkNVC src (((m' + 1 : ℕ) : ℚ) * t) t total)).2.2) := by
  constructor
  · intro h0
    obtain ⟨f, hf⟩ := Option.isSome_iff_exists.mp h0
    unfold NVC.read mkNVC
    dsimp only
    unfold NVC.read_original
    simp only [hf]
    unfold NVC.returnFrame
    dsimp only
    refine ⟨rfl, rfl, rfl, by simp, rfl, rfl, by norm_num, ?_, rfl⟩
    rw [show (m' + 1) * 0 = 0 by ring, hf]
  · intro h0
    have hf : src 0 = none := Option.not_isSome_iff_eq_none.mp h0
    unfold NVC.read mkNVC
    dsimp only
    unfold NVC.read_original
    simp only [hf]
    unfold NVC.returnFrame
    dsimp only
    exact ⟨rfl, rfl, rfl, hf⟩

lemma stride_main {F : Type} (blend : ℚ → F → F → F) (src : Nat → Option F) (m' : Nat)
    (t : ℚ) (ht : t ≠ 0) (total : ℚ) :
    ∀ k : Nat,
      ((∀ i, i ≤ (m' + 1) * k → (src i).isSome) →
        (nthRead blend k (mkNVC src (((m' + 1 : ℕ) : ℚ) * t) t total)).1 = true ∧
        (nthRead blend k (mkNVC src (((m' + 1 : ℕ) : ℚ) * t) t total)).2.1 =
          src ((m' + 1) * k) ∧
        StrideInv src (m' + 1) t k
          (iterRead blend (k + 1) (mkNVC src (((m' + 1 : ℕ) : ℚ) * t) t total))) ∧
      ((¬∀ i, i ≤ (m' + 1) * k → (src i).isSome) →
        (nthRead blend k (mkNVC src (((m' + 1 : ℕ) : ℚ) * t) t total)).1 = false ∧
        (nthRead blend k (mkNVC src (((m' + 1 : ℕ) : ℚ) * t) t total)).2.1 = none ∧
        Stuck (iterRead blend (k + 1) (mkNVC src (((m' + 1 : ℕ) : ℚ) * t) t total))) := by
  intro k
  induction k with
  | zero =>
    have hb := stride_base blend src m' t total
    constructor
    · intro hall
      have h0 := hall 0 (Nat.zero_le _)
      obtain ⟨h1, h2, h3⟩ := hb.1 h0
      exact ⟨h1, by rwa [show (m' + 1) * 0 = 0 by ring], h3⟩
    · intro hmiss
      have h0 : ¬(src 0).isSome := fun h0 => hmiss (fun i hi => by
        rwa [Nat.le_zero.mp (le_trans hi (by simp))])
      exact hb.2 h0
  | succ k ih =>
    have hle : (m' + 1) * k ≤ (m' + 1) * (k + 1) := Nat.mul_le_mul_left _ (by omega)
    constructor
    · intro hall
      have hall' : ∀ i, i ≤ (m' + 1) * k → (src i).isSome :=
        fun i hi => hall i (le_trans hi hle)
      obtain ⟨-, -, hinv⟩ := ih.1 hall'
      obtain ⟨h1, h2, h3⟩ :=
        (stride_step blend src m' t ht k _ hinv hall').1 hall
      exact ⟨h1, h2, by rw [iterRead_succ_back]; exact h3⟩
    · intro hmiss
      by_cases hall' : ∀ i, i ≤ (m' + 1) * k → (src i).isSome
      · obtain ⟨-, -, hinv⟩ := ih.1 hall'
        obtain ⟨h1, h2, h3⟩ :=
          (stride_step blend src m' t ht k _ hinv hall').2 hmiss
        exact ⟨h1, h2, by rw [iterRead_succ_back]; exact h3⟩
      · obtain ⟨-, -, hstuck⟩ := ih.2 hall'
        have hrd := stuck_read blend _ hstuck
        refine ⟨?_, ?_, ?_⟩
        · show (NVC.read blend _).1 = false
          rw [hrd]
        · show (NVC.read blend _).2.1 = none
          rw [hrd]
        · rw [iterRead_succ_back, hrd]
          exact hstuck

/-- Claim C5 (confirmed): when `native_rate == target_rate` (a nonzero rate
`r`), every frame returned by `read()` is a source frame unmodified: the
`k`-th read returns exactly source frame `k`, for EVERY pixel-blending
function — so the interpolation can never have been applied — and the read
succeeds precisely while source frames remain (given a hole-free stream). -/
theorem C5_equal_rates_identity {F : Type} (blend : ℚ → F → F → F) (src : Nat → Option F)
    (r total : ℚ) (hr : r ≠ 0) (hclosed : StreamClosed src) (k : Nat) :
    ((nthRead blend k (mkNVC src r r total)).1 = true →
      (nthRead blend k (mkNVC src r r total)).2.1 = src k) ∧
    ((src k).isSome → (nthRead blend k (mkNVC src r r total)).1 = true) := by
  have hinit : mkNVC src r r total = mkNVC src (((0 + 1 : ℕ) : ℚ) * r) r total := by
    unfold mkNVC
    norm_num
  have hmain := stride_main blend src 0 r hr total k
  rw [show (0 + 1) * k = k by omega] at hmain
  rw [hinit]
  constructor
  · intro hok
    by_cases hall : ∀ i, i ≤ k → (src i).isSome
    · exact (hmain.1 hall).2.1
    · rw [(hmain.2 hall).1] at hok
      exact absurd hok (by simp)
  · intro hsk
    exact (hmain.1 (closed_all src hclosed k hsk)).1

/-- Claim C5, witness: at rate 15 over a 3-frame stream, the second read
returns source frame 1 unmodified. -/
theorem C5_witness :
    ((nthRead blendQ 1 (mkNVC (rampSrc 3) 15 15 3)).1 = true →
      (nthRead blendQ 1 (mkNVC (rampSrc 3) 15 15 3)).2.1 = rampSrc 3 1) ∧
    ((rampSrc 3 1).isSome → (nthRead blendQ 1 (mkNVC (rampSrc 3) 15 15 3)).1 = true) :=
  C5_equal_rates_identity blendQ (rampSrc 3) 15 3 (by norm_num) (rampSrc_closed 3) 1

/-- Claim C2 (corrected, "blend" replaced by "unmodified copy"): when
`native_rate = 2 × target_rate`, every frame returned by `read()` is a
source frame unmodified — the `k`-th read returns exactly source frame
`2k`, for EVERY pixel-blending function, so no 50/50 blend ever occurs
(the virtual position is always an even integer and the rounded weight is
always 0.00). -/
theorem C2_double_rate_even_frames {F : Type} (blend : ℚ → F → F → F)
    (src : Nat → Option F) (r total : ℚ) (hr : r ≠ 0) (hclosed : StreamClosed src)
    (k : Nat) :
    ((nthRead blend k (mkNVC src (2 * r) r total)).1 = true →
      (nthRead blend k (mkNVC src (2 * r) r total)).2.1 = src (2 * k)) ∧
    ((src (2 * k)).isSome → (nthRead blend k (mkNVC src (2 * r) r total)).1 = true) := by
  have hinit : mkNVC src (2 * r) r total = mkNVC src (((1 + 1 : ℕ) : ℚ) * r) r total := by
    unfold mkNVC
    norm_num
  have hmain := stride_main blend src 1 r hr total k
  rw [show (1 + 1) * k = 2 * k by omega] at hmain
  rw [hinit]
  constructor
  · intro hok
    by_cases hall : ∀ i, i ≤ 2 * k → (src i).isSome
    · exact (hmain.1 hall).2.1
    · rw [(hmain.2 hall).1] at hok
      exact absurd hok (by simp)
  · intro hsk
    exact (hmain.1 (closed_all src hclosed (2 * k) hsk)).1

/-- Claim C2, witness: at native 2 fps towards target 1 fps over five
distinct frames, the second read returns source frame 2 unmodified. -/
theorem C2_witness :
    ((nthRead blendQ 1 (mkNVC (rampSrc 5) (2 * 1) 1 5)).1 = true →
      (nthRead blendQ 1 (mkNVC (rampSrc 5) (2 * 1) 1 5)).2.1 = rampSrc 5 (2 * 1)) ∧
    ((rampSrc 5 (2 * 1)).isSome →
      (nthRead blendQ 1 (mkNVC (rampSrc 5) (2 * 1) 1 5)).1 = true) :=
  C2_double_rate_even_frames blendQ (rampSrc 5) 1 5 (by norm_num) (rampSrc_closed 5) 1

/-- Claim C2, counterexample to the claim as stated: on the stream
0,1,2,3,4 at native 2 fps towards 1 fps, the second output frame has pixel
value 2 — an unmodified source frame — while the exact 50/50 blends of the
consecutive source pairs are 0.5, 1.5, 2.5 and 3.5; the output equals none
of them, so it is not "an exact 50/50 blend of two consecutive source
frames". -/
theorem C2_counterexample :
    (nthRead blendQ 1 (mkNVC (rampSrc 5) 2 1 5)).2.1 = some 2 ∧
    blendQ (1/2) 0 1 = 1/2 ∧ blendQ (1/2) 1 2 = 3/2 ∧
    blendQ (1/2) 2 3 = 5/2 ∧ blendQ (1/2) 3 4 = 7/2 ∧
    (2 : ℚ) ≠ 1/2 ∧ (2 : ℚ) ≠ 3/2 ∧ (2 : ℚ) ≠ 5/2 ∧ (2 : ℚ) ≠ 7/2 := by
  refine ⟨by with_unfolding_all rfl, ?_, ?_, ?_, ?_, ?_, ?_, ?_, ?_⟩ <;> norm_num [blendQ]

end VideoProc
